import Mathlib

/-!
Shallow embedding of the asyextract personnel-record tool.

Strings are modelled as `List Char` (`Str`); JavaScript string operations
(`toUpperCase`, `toLowerCase`, `trim`, `includes`, `startsWith`, `||`
defaulting, `join`, template quoting) are translated char-by-char.  The
record type `CorpsMember` follows `src/types.ts`; the extraction cleanup,
grouping, filtering, CSV building, error mapping and the UI mutation
handlers are translated from `src/App.tsx`, `src/services/geminiService.ts`
and the unnamed App variants.
-/

namespace AsyExtract

open scoped List

/-- JavaScript strings, modelled as lists of characters. -/
abbrev Str := List Char

/-- JS `v || d` for an optional string field: `undefined`, `null` and the
empty string are falsy, everything else is truthy. -/
def jsOr (v : Option Str) (d : Str) : Str :=
  match v with
  | none => d
  | some s => if s = [] then d else s

/-- JS `s || d` where `s` is known to be a string. -/
def jsOrS (s d : Str) : Str :=
  if s = [] then d else s

/-- JS `String.prototype.toUpperCase`, per character. -/
def upperS (s : Str) : Str := s.map Char.toUpper

/-- JS `String.prototype.toLowerCase`, per character. -/
def lowerS (s : Str) : Str := s.map Char.toLower

/-- JS `String.prototype.trim`: whitespace stripped from both ends. -/
def trimS (s : Str) : Str :=
  ((s.dropWhile Char.isWhitespace).reverse.dropWhile Char.isWhitespace).reverse

/-- JS `s.startsWith('F')`. -/
def startsWithF (s : Str) : Bool :=
  match s with
  | [] => false
  | c :: _ => c = 'F'

/-- `leadsWith needle hay` is true when `needle` is an initial segment of
`hay`; used to express JS `String.prototype.includes`. -/
def leadsWith : Str → Str → Bool
  | [], _ => true
  | _ :: _, [] => false
  | a :: as, b :: bs => a = b && leadsWith as bs

/-- JS `hay.includes needle`. -/
def incl (hay needle : Str) : Bool :=
  match hay with
  | [] => leadsWith needle []
  | _ :: t => leadsWith needle hay || incl t needle

/-- JS `s.replace(/"/g, '""')` (CSV quote escaping in `exportToCSV`). -/
def escQ (s : Str) : Str :=
  (s.map (fun c => if c = '"' then juggleQ else [c])).flatten
where
  /-- the two-character replacement -/
  juggleQ : Str := ['"', '"']

/-- Template-literal quoting `"${s}"` used when building CSV fields. -/
def dq (s : Str) : Str := '"' :: s ++ ['"']

/-- Decimal digit character. -/
def digitChar (n : Nat) : Char :=
  if n = 0 then '0' else if n = 1 then '1' else if n = 2 then '2'
  else if n = 3 then '3' else if n = 4 then '4' else if n = 5 then '5'
  else if n = 6 then '6' else if n = 7 then '7' else if n = 8 then '8'
  else '9'

/-- Decimal rendering of a natural number, as JS `String(n)` produces for
the serial-number field. -/
def natStr (n : Nat) : Str :=
  if n < 10 then [digitChar n]
  else natStr (n / 10) ++ [digitChar (n % 10)]
decreasing_by exact Nat.div_lt_self (by omega) (by omega)

/-- JS `Array.prototype.join` with a one-character separator. -/
def joinWith (sep : Char) : List Str → Str
  | [] => []
  | [r] => r
  | r :: s :: rs => r ++ sep :: joinWith sep (s :: rs)

/-- Split a string at every occurrence of `sep` (the inverse of
`joinWith` on separator-free pieces); used to talk about the lines of the
produced CSV text. -/
def splitCh (sep : Char) : Str → List Str
  | [] => [[]]
  | a :: as =>
    if a = sep then [] :: splitCh sep as
    else
      match splitCh sep as with
      | [] => [[a]]
      | r :: rs => (a :: r) :: rs

/-- The personnel record of `src/types.ts` (`CorpsMember`). -/
structure CorpsMember where
  id : Str
  sn : Nat
  stateCode : Str
  fullName : Str
  gender : Str
  phone : Str
  companyName : Str
deriving DecidableEq, Repr

/-- A member object as parsed from the AI service's JSON reply in
`src/services/geminiService.ts` (first variant): every field may be
missing. -/
structure RawMember where
  id : Option Str
  sn : Option Int
  stateCode : Option Str
  fullName : Option Str
  gender : Option Str
  phone : Option Str
  companyName : Option Str
deriving DecidableEq, Repr

/-- A member object as parsed in the second `geminiService` variant
(split name parts, attendance metadata elided). -/
structure RawMember2 where
  sn : Option Int
  stateCode : Option Str
  surname : Option Str
  firstName : Option Str
  middleName : Option Str
  gender : Option Str
  phone : Option Str
  companyName : Option Str
deriving DecidableEq, Repr

/-! ## Extraction cleanup and sorting (`src/services/geminiService.ts`) -/

/-- The cleanup map applied to each parsed member in the first
`extractCorpsData` variant (geminiService.ts, lines 85-90):
`gender: (m.gender || 'M').toUpperCase().startsWith('F') ? 'F' : 'M'`,
`fullName: (m.fullName || '').toUpperCase()`,
`companyName: (m.companyName || 'Unassigned').toUpperCase()`. -/
def cleanup1 (m : RawMember) : RawMember :=
  { m with
    gender := some (if startsWithF (upperS (jsOr m.gender ['M'])) then ['F'] else ['M'])
    fullName := some (upperS (jsOr m.fullName []))
    companyName := some (upperS (jsOr m.companyName "Unassigned".toList)) }

/-- The cleanup map of the second `extractCorpsData` variant
(geminiService.ts, lines 205-217); the randomly generated `id` is not
modelled. -/
def cleanup2 (m : RawMember2) : RawMember2 :=
  { m with
    surname := some (trimS (jsOr m.surname []))
    firstName := some (trimS (jsOr m.firstName []))
    middleName := some (trimS (jsOr m.middleName []))
    gender := some (if startsWithF (upperS (jsOr m.gender ['M'])) then ['F'] else ['M'])
    stateCode := some (trimS (upperS (jsOr m.stateCode [])))
    phone := some (trimS (jsOr m.phone []))
    companyName := some (trimS (jsOr m.companyName [])) }

/-- The sort key `(a.sn || 0)` of the final `.sort` call. -/
def snKey (m : RawMember) : Int := m.sn.getD 0

/-- The comparator order of `.sort((a, b) => (a.sn || 0) - (b.sn || 0))`. -/
def snLe (a b : RawMember) : Prop := snKey a ≤ snKey b

instance : DecidableRel snLe :=
  fun a b => inferInstanceAs (Decidable (snKey a ≤ snKey b))

instance : IsTotal RawMember snLe := ⟨fun a b => le_total (snKey a) (snKey b)⟩

instance : IsTrans RawMember snLe := ⟨fun _ _ _ hab hbc => le_trans hab hbc⟩

/-- Sort key of the second variant. -/
def snKey2 (m : RawMember2) : Int := m.sn.getD 0

/-- Comparator order of the second variant's `.sort` call. -/
def snLe2 (a b : RawMember2) : Prop := snKey2 a ≤ snKey2 b

instance : DecidableRel snLe2 :=
  fun a b => inferInstanceAs (Decidable (snKey2 a ≤ snKey2 b))

instance : IsTotal RawMember2 snLe2 := ⟨fun a b => le_total (snKey2 a) (snKey2 b)⟩

instance : IsTrans RawMember2 snLe2 := ⟨fun _ _ _ hab hbc => le_trans hab hbc⟩

/-- What the first `extractCorpsData` variant does to the parsed member
list before returning it: `.map(cleanup).sort(by sn)`.  JS `Array.sort`
is stable, so a stable insertion sort models it. -/
def extractClean1 (ms : List RawMember) : List RawMember :=
  List.insertionSort snLe (ms.map cleanup1)

/-- Same for the second variant. -/
def extractClean2 (ms : List RawMember2) : List RawMember2 :=
  List.insertionSort snLe2 (ms.map cleanup2)

/-! ## Error mapping and the `processFiles` state transition
(`src/App.tsx`, lines 56-109) -/

/-- Generic fallback error text. -/
def genericMsg : Str :=
  "An unexpected error occurred during extraction. Please try again.".toList

/-- User-facing text for `AUTH_ERROR`. -/
def authMsg : Str :=
  "Authentication failed. The AI service access is restricted. Please check your configuration.".toList

/-- User-facing text for `SERVICE_OVERLOAD`. -/
def overloadMsg : Str :=
  "The extraction service is currently busy handling too many requests. Please wait 30 seconds and try again.".toList

/-- User-facing text for `NETWORK_ERROR`. -/
def networkMsg : Str :=
  "Connection lost. Please check your internet connectivity and ensure the files aren't too large.".toList

/-- User-facing text for `RECOGNITION_ERROR`. -/
def recognitionMsg : Str :=
  "No corps member data could be identified. Try using higher quality photos or scanned PDF documents.".toList

/-- The `switch (err.message)` of the catch clause in `processFiles`
(App.tsx, lines 84-100): each case is an exact-equality comparison. -/
def mapError (msg : Str) : Str :=
  if msg = "AUTH_ERROR".toList then authMsg
  else if msg = "SERVICE_OVERLOAD".toList then overloadMsg
  else if msg = "NETWORK_ERROR".toList then networkMsg
  else if msg = "RECOGNITION_ERROR".toList then recognitionMsg
  else genericMsg

/-- The processing-step enum of `AppState` (`src/types.ts`). -/
inductive Step
  | idle
  | scanning
  | extracting
  | validating
deriving DecidableEq, Repr

/-- `AppState` from `src/types.ts`. -/
structure AppState where
  isProcessing : Bool
  processingStep : Step
  data : List CorpsMember
  error : Option Str
  selectedGroup : Option Str
deriving DecidableEq, Repr

/-- The net effect of one `processFiles` run (App.tsx, lines 56-109),
parameterised by the outcome of the awaited `extractCorpsData` call:
first the start `setState` (processing on, error cleared), then either
the success update or the catch-clause update. -/
def processFiles (s : AppState) (result : Except Str (List CorpsMember)) : AppState :=
  let started : AppState :=
    { s with isProcessing := true, processingStep := Step.scanning, error := none }
  match result with
  | Except.ok r =>
      { started with
        data := r
        isProcessing := false
        processingStep := Step.idle
        selectedGroup := none }
  | Except.error e =>
      { started with
        error := some (mapError e)
        isProcessing := false
        processingStep := Step.idle }

/-! ## UI mutation handlers (`src/App.tsx`, lines 111-139) -/

/-- The editable fields of a record (`keyof CorpsMember`). -/
inductive Field
  | id
  | sn
  | stateCode
  | fullName
  | gender
  | phone
  | companyName
deriving DecidableEq, Repr

/-- The value type carried by each field (`string | number`). -/
def FieldVal : Field → Type
  | Field.sn => Nat
  | _ => Str

/-- `{ ...m, [field]: value }`. -/
def setF : (f : Field) → FieldVal f → CorpsMember → CorpsMember
  | Field.id, v, m => { m with id := v }
  | Field.sn, v, m => { m with sn := v }
  | Field.stateCode, v, m => { m with stateCode := v }
  | Field.fullName, v, m => { m with fullName := v }
  | Field.gender, v, m => { m with gender := v }
  | Field.phone, v, m => { m with phone := v }
  | Field.companyName, v, m => { m with companyName := v }

/-- Field projection, for stating frame conditions. -/
def getF : (f : Field) → CorpsMember → FieldVal f
  | Field.id, m => m.id
  | Field.sn, m => m.sn
  | Field.stateCode, m => m.stateCode
  | Field.fullName, m => m.fullName
  | Field.gender, m => m.gender
  | Field.phone, m => m.phone
  | Field.companyName, m => m.companyName

/-- `handleEditChange` (App.tsx, lines 111-116):
`data.map(m => m.id === id ? { ...m, [field]: value } : m)`. -/
def handleEditChange (i : Str) (f : Field) (v : FieldVal f)
    (data : List CorpsMember) : List CorpsMember :=
  data.map (fun m => if m.id = i then setF f v m else m)

/-- `deleteMember` (App.tsx, lines 118-123):
`data.filter(m => m.id !== id)`. -/
def deleteMember (i : Str) (data : List CorpsMember) : List CorpsMember :=
  data.filter (fun m => decide (m.id ≠ i))

/-- The record built by `addNewMember` (App.tsx, lines 125-139); the
random `id` is a parameter. -/
def newMemberOf (newId : Str) (dataLen : Nat)
    (stateCode fullName gender phone ppa : Str) : CorpsMember :=
  { id := newId
    sn := dataLen + 1
    stateCode := stateCode
    fullName := upperS fullName
    gender := gender
    phone := phone
    companyName := jsOrS ppa "Unassigned".toList }

/-- `addNewMember`'s state update: `data: [...prev.data, newMember]`. -/
def addNewMember (newId : Str) (stateCode fullName gender phone ppa : Str)
    (data : List CorpsMember) : List CorpsMember :=
  data ++ [newMemberOf newId data.length stateCode fullName gender phone ppa]

/-! ## Grouping (`src/App.tsx` lines 145-153, `src/unnamed/part_000`
lines 129-136) -/

/-- The placeholder key substituted for an empty organization field in
the App.tsx `groups` memo. -/
def placeholderStr : Str := "Unassigned / Not Found".toList

/-- `member.companyName || 'Unassigned / Not Found'`. -/
def keyApp (m : CorpsMember) : Str := jsOrS m.companyName placeholderStr

/-- One insertion into the key-to-list association (the body of the
single grouping pass; JS `Map`/object keys keep insertion order, and new
members are pushed at the end of their group's array). -/
def insertGrp (k : Str) (m : CorpsMember) :
    List (Str × List CorpsMember) → List (Str × List CorpsMember)
  | [] => [(k, [m])]
  | (k', ms) :: rest =>
    if k' = k then (k', ms ++ [m]) :: rest else (k', ms) :: insertGrp k m rest

/-- The single grouping pass over the record list with grouping key
`key`. -/
def groupFold (key : CorpsMember → Str) (l : List CorpsMember) :
    List (Str × List CorpsMember) :=
  l.foldl (fun acc m => insertGrp (key m) m acc) []

/-- The comparator order of `.sort((a, b) => b[1].length - a[1].length)`
(descending group size). -/
def sizeDesc (a b : Str × List CorpsMember) : Prop := b.2.length ≤ a.2.length

instance : DecidableRel sizeDesc :=
  fun a b => inferInstanceAs (Decidable (b.2.length ≤ a.2.length))

instance : IsTotal (Str × List CorpsMember) sizeDesc :=
  ⟨fun a b => le_total b.2.length a.2.length⟩

instance : IsTrans (Str × List CorpsMember) sizeDesc :=
  ⟨fun _ _ _ hab hbc => le_trans hbc hab⟩

/-- The `groups` memo of App.tsx (lines 145-153): group by
`companyName || 'Unassigned / Not Found'`, then sort entries by
descending group size. -/
def groupsApp (l : List CorpsMember) : List (Str × List CorpsMember) :=
  List.insertionSort sizeDesc (groupFold keyApp l)

/-- The `ppaGroups` memo of `src/unnamed/part_000` (lines 129-136):
group by the raw `companyName`. -/
def ppaGroups (l : List CorpsMember) : List (Str × List CorpsMember) :=
  groupFold (fun m => m.companyName) l

/-! ## Search filtering (`src/App.tsx` lines 169-179,
`src/unnamed/part_000` lines 112-118) -/

/-- The search predicate: full name, state code or organization contains
the term, both sides lower-cased. -/
def matchesS (t : Str) (m : CorpsMember) : Bool :=
  incl (lowerS m.fullName) (lowerS t) || incl (lowerS m.stateCode) (lowerS t) ||
    incl (lowerS m.companyName) (lowerS t)

/-- The `filteredData` memo of `part_000` (and the filter step of
App.tsx's `filteredMembers`). -/
def filteredData (t : Str) (l : List CorpsMember) : List CorpsMember :=
  l.filter (matchesS t)

/-! ## CSV export (`src/App.tsx` lines 181-199, `src/unnamed/part_000`
lines 83-110) -/

/-- Header captions of App.tsx's `downloadCSV`. -/
def headersApp : List Str :=
  ["SN".toList, "State Code".toList, "Full Name".toList, "Gender".toList,
    "GSM NO".toList, "PPA".toList]

/-- One CSV data row of `downloadCSV`:
`[m.sn, `"${m.stateCode}"`, `"${m.fullName}"`, m.gender, `"${m.phone}"`,
`"${m.companyName}"`].join(",")`. -/
def rowApp (m : CorpsMember) : Str :=
  joinWith ','
    [natStr m.sn, dq m.stateCode, dq m.fullName, m.gender, dq m.phone,
      dq m.companyName]

/-- `downloadCSV`'s full text:
`[headers, ...rows].map(e => e.join(",")).join("\n")`. -/
def csvApp (l : List CorpsMember) : Str :=
  joinWith '\n' (joinWith ',' headersApp :: l.map rowApp)

/-- Header captions of `part_000`'s `exportToCSV`. -/
def headers0 : List Str :=
  ["SN".toList, "State Code".toList, "Full Name".toList, "Gender".toList,
    "Phone".toList, "PPA".toList]

/-- One CSV data row of `part_000`'s `exportToCSV` (name and
organization quote-escaped and quoted). -/
def row0 (m : CorpsMember) : Str :=
  joinWith ','
    [natStr m.sn, m.stateCode, dq (escQ m.fullName), m.gender, m.phone,
      dq (escQ m.companyName)]

/-- `part_000`'s `exportToCSV` full text:
`[headers.join(','), ...rows.map(e => e.join(','))].join('\n')`. -/
def csv0 (l : List CorpsMember) : Str :=
  joinWith '\n' (joinWith ',' headers0 :: l.map row0)

/-- All records collected in a grouping, in group order. -/
def joinVals (g : List (Str × List CorpsMember)) : List CorpsMember :=
  (g.map Prod.snd).flatten

/-- The claim's side condition: no string field of the record contains a
newline. -/
def noNL (m : CorpsMember) : Prop :=
  '\n' ∉ m.stateCode ∧ '\n' ∉ m.fullName ∧ '\n' ∉ m.gender ∧
    '\n' ∉ m.phone ∧ '\n' ∉ m.companyName

instance (m : CorpsMember) : Decidable (noNL m) :=
  inferInstanceAs (Decidable (_ ∧ _ ∧ _ ∧ _ ∧ _))

/-! ## Concrete sample records, used to instantiate closed statements -/

/-- A sample record with organization "ALPHA". -/
def smp1 : CorpsMember :=
  { id := "a1".toList, sn := 1, stateCode := "NY/24B/0001".toList,
    fullName := "DOE JOHN".toList, gender := "M".toList,
    phone := "08000000000".toList, companyName := "ALPHA".toList }

/-- A sample record for the CSV instance. -/
def smp6 : CorpsMember :=
  { id := "a6".toList, sn := 12, stateCode := "NY/24B/0006".toList,
    fullName := "POE EDGAR".toList, gender := "M".toList,
    phone := "08000000006".toList, companyName := "BETA".toList }

/-- A sample record for the edit/delete instance. -/
def smp8 : CorpsMember :=
  { id := "a8".toList, sn := 3, stateCode := "NY/24B/0008".toList,
    fullName := "ROE RICHARD".toList, gender := "M".toList,
    phone := "08000000008".toList, companyName := "GAMMA".toList }

/-- A sample record whose organization field is the empty string. -/
def smpEmptyOrg : CorpsMember :=
  { id := "a2".toList, sn := 2, stateCode := "NY/24B/0002".toList,
    fullName := "ROE JANE".toList, gender := "F".toList,
    phone := "08000000001".toList, companyName := [] }

/-- A sample parsed member with every field missing. -/
def smpRawNone : RawMember :=
  { id := none, sn := none, stateCode := none, fullName := none,
    gender := none, phone := none, companyName := none }

/-! ## Helper lemmas: substring search -/

theorem leadsWith_iff : ∀ (nd l : Str), leadsWith nd l = true ↔ nd <+: l
  | [], l => by simp [leadsWith, List.nil_prefix]
  | a :: as, [] => by simp [leadsWith]
  | a :: as, b :: bs => by
    simp [leadsWith, List.cons_prefix_cons, leadsWith_iff as bs, and_comm]

theorem incl_iff : ∀ (hay nd : Str), incl hay nd = true ↔ nd <:+: hay
  | [], nd => by
    rw [incl, leadsWith_iff, List.prefix_nil, List.infix_nil]
  | h :: t, nd => by
    rw [incl, List.infix_cons_iff, Bool.or_eq_true, leadsWith_iff, incl_iff t nd]

theorem incl_nil (hay : Str) : incl hay [] = true := by
  cases hay <;> simp [incl, leadsWith]

/-! ## Helper lemmas: CSV line structure -/

theorem joinWith_cons (sep : Char) (r : Str) {rs : List Str} (h : rs ≠ []) :
    joinWith sep (r :: rs) = r ++ sep :: joinWith sep rs := by
  cases rs with
  | nil => exact absurd rfl h
  | cons s rs => rfl

theorem splitCh_not_mem {sep : Char} : ∀ {xs : Str}, sep ∉ xs → splitCh sep xs = [xs]
  | [], _ => rfl
  | a :: as, h => by
    have ha : ¬ a = sep := fun e => h (e ▸ List.mem_cons_self a as)
    have ih := splitCh_not_mem (fun m => h (List.mem_cons_of_mem a m))
    simp [splitCh, ha, ih]

theorem splitCh_append {sep : Char} :
    ∀ (xs ys : Str), sep ∉ xs →
      splitCh sep (xs ++ sep :: ys) = xs :: splitCh sep ys
  | [], ys, _ => by simp [splitCh]
  | a :: as, ys, h => by
    have ha : ¬ a = sep := fun e => h (e ▸ List.mem_cons_self a as)
    have ih := splitCh_append as ys (fun m => h (List.mem_cons_of_mem a m))
    simp [splitCh, ha, ih]

theorem splitCh_joinWith {sep : Char} :
    ∀ (rs : List Str), rs ≠ [] → (∀ r ∈ rs, sep ∉ r) →
      splitCh sep (joinWith sep rs) = rs
  | [], h, _ => absurd rfl h
  | [r], _, hmem => by
    rw [joinWith, splitCh_not_mem (hmem r (List.mem_singleton.mpr rfl))]
  | r :: s :: rs, _, hmem => by
    have ih := splitCh_joinWith (s :: rs) (by simp)
      (fun x hx => hmem x (List.mem_cons_of_mem r hx))
    rw [joinWith, splitCh_append r _ (hmem r (List.mem_cons_self r _)), ih]

theorem mem_joinWith {sep c : Char} :
    ∀ {rs : List Str}, c ∈ joinWith sep rs → c = sep ∨ ∃ r ∈ rs, c ∈ r
  | [], h => by simp [joinWith] at h
  | [r], h => by
    rw [joinWith] at h
    exact Or.inr ⟨r, List.mem_singleton.mpr rfl, h⟩
  | r :: s :: rs, h => by
    rw [joinWith] at h
    rcases List.mem_append.mp h with h1 | h2
    · exact Or.inr ⟨r, List.mem_cons_self r _, h1⟩
    · rcases List.mem_cons.mp h2 with h3 | h4
      · exact Or.inl h3
      · rcases mem_joinWith h4 with h5 | ⟨x, hx, hcx⟩
        · exact Or.inl h5
        · exact Or.inr ⟨x, List.mem_cons_of_mem r hx, hcx⟩

theorem digitChar_ne_nl (n : Nat) : digitChar n ≠ '\n' := by
  unfold digitChar
  repeat' split
  all_goals decide

theorem nl_not_mem_natStr (n : Nat) : '\n' ∉ natStr n := by
  induction n using Nat.strong_induction_on with
  | _ n ih =>
    rw [natStr]
    split
    · simp only [List.mem_singleton]
      exact fun e => digitChar_ne_nl n e.symm
    · next h =>
      intro hm
      rcases List.mem_append.mp hm with h1 | h2
      · exact ih (n / 10) (Nat.div_lt_self (by omega) (by omega)) h1
      · simp only [List.mem_singleton] at h2
        exact digitChar_ne_nl (n % 10) h2.symm

theorem nl_not_mem_escQ {s : Str} (h : '\n' ∉ s) : '\n' ∉ escQ s := by
  intro hm
  unfold escQ at hm
  rcases List.mem_flatten.mp hm with ⟨l, hl, hc⟩
  rcases List.mem_map.mp hl with ⟨c, hcs, rfl⟩
  by_cases hq : c = '"'
  · simp [hq, escQ.juggleQ] at hc
  · simp only [if_neg hq, List.mem_singleton] at hc
    exact h (hc ▸ hcs)

theorem nl_not_mem_dq {s : Str} (h : '\n' ∉ s) : '\n' ∉ dq s := by
  intro hm
  rcases List.mem_cons.mp hm with h1 | h2
  · exact absurd h1 (by decide)
  · rcases List.mem_append.mp h2 with h3 | h4
    · exact h h3
    · exact absurd (List.mem_singleton.mp h4) (by decide)

theorem nl_not_mem_rowApp {m : CorpsMember} (h : noNL m) : '\n' ∉ rowApp m := by
  obtain ⟨h1, h2, h3, h4, h5⟩ := h
  intro hm
  rcases mem_joinWith hm with he | ⟨r, hr, hcr⟩
  · exact absurd he (by decide)
  · simp only [List.mem_cons, List.mem_singleton, List.not_mem_nil, or_false] at hr
    rcases hr with rfl | rfl | rfl | rfl | rfl | rfl
    · exact nl_not_mem_natStr m.sn hcr
    · exact nl_not_mem_dq h1 hcr
    · exact nl_not_mem_dq h2 hcr
    · exact h3 hcr
    · exact nl_not_mem_dq h4 hcr
    · exact nl_not_mem_dq h5 hcr

theorem nl_not_mem_row0 {m : CorpsMember} (h : noNL m) : '\n' ∉ row0 m := by
  obtain ⟨h1, h2, h3, h4, h5⟩ := h
  intro hm
  rcases mem_joinWith hm with he | ⟨r, hr, hcr⟩
  · exact absurd he (by decide)
  · simp only [List.mem_cons, List.mem_singleton, List.not_mem_nil, or_false] at hr
    rcases hr with rfl | rfl | rfl | rfl | rfl | rfl
    · exact nl_not_mem_natStr m.sn hcr
    · exact h1 hcr
    · exact nl_not_mem_dq (nl_not_mem_escQ h2) hcr
    · exact h3 hcr
    · exact h4 hcr
    · exact nl_not_mem_dq (nl_not_mem_escQ h5) hcr

/-! ## Helper lemmas: grouping -/

theorem insertGrp_perm (k : Str) (m : CorpsMember) :
    ∀ (g : List (Str × List CorpsMember)),
      joinVals (insertGrp k m g) ~ m :: joinVals g
  | [] => by simp [insertGrp, joinVals]
  | (k', ms) :: rest => by
    rw [insertGrp]
    split
    · show joinVals ((k', ms ++ [m]) :: rest) ~ _
      simp only [joinVals, List.map_cons, List.flatten_cons]
      calc (ms ++ [m]) ++ (rest.map Prod.snd).flatten
          = ms ++ m :: (rest.map Prod.snd).flatten := by simp
        _ ~ m :: (ms ++ (rest.map Prod.snd).flatten) := List.perm_middle
    · show joinVals ((k', ms) :: insertGrp k m rest) ~ _
      simp only [joinVals, List.map_cons, List.flatten_cons]
      calc ms ++ ((insertGrp k m rest).map Prod.snd).flatten
          ~ ms ++ m :: (rest.map Prod.snd).flatten :=
            List.Perm.append_left ms (insertGrp_perm k m rest)
        _ ~ m :: (ms ++ (rest.map Prod.snd).flatten) := List.perm_middle

theorem mem_fst_insertGrp {x k : Str} {m : CorpsMember} :
    ∀ {g : List (Str × List CorpsMember)},
      x ∈ (insertGrp k m g).map Prod.fst ↔ x ∈ g.map Prod.fst ∨ x = k
  | [] => by simp [insertGrp]
  | (k', ms) :: rest => by
    rw [insertGrp]
    split
    · next he =>
      subst he
      simp only [List.map_cons, List.mem_cons]
      constructor
      · exact fun h => h.elim (fun e => Or.inl (Or.inl e)) (fun h => Or.inl (Or.inr h))
      · rintro ((e | h) | e)
        · exact Or.inl e
        · exact Or.inr h
        · exact Or.inl e
    · simp only [List.map_cons, List.mem_cons, @mem_fst_insertGrp _ _ _ rest]
      tauto

theorem insertGrp_nodup_fst {k : Str} {m : CorpsMember} :
    ∀ {g : List (Str × List CorpsMember)},
      (g.map Prod.fst).Nodup → ((insertGrp k m g).map Prod.fst).Nodup
  | [], _ => by simp [insertGrp]
  | (k', ms) :: rest, h => by
    rw [List.map_cons, List.nodup_cons] at h
    rw [insertGrp]
    split
    · rw [List.map_cons, List.nodup_cons]
      exact h
    · next hne =>
      rw [List.map_cons, List.nodup_cons, mem_fst_insertGrp]
      exact ⟨fun hor => hor.elim h.1 (fun e => hne e), insertGrp_nodup_fst h.2⟩

theorem insertGrp_consistent {key : CorpsMember → Str} {k : Str} {m : CorpsMember}
    (hm : key m = k) :
    ∀ {g : List (Str × List CorpsMember)},
      (∀ p ∈ g, ∀ x ∈ p.2, key x = p.1) →
      ∀ p ∈ insertGrp k m g, ∀ x ∈ p.2, key x = p.1
  | [], _, p, hp, x, hx => by
    simp only [insertGrp, List.mem_singleton] at hp
    subst hp
    simp only [List.mem_singleton] at hx
    subst hx
    exact hm
  | (k', ms) :: rest, h, p, hp, x, hx => by
    rw [insertGrp] at hp
    split at hp
    · next he =>
      rcases List.mem_cons.mp hp with rfl | htail
      · rcases List.mem_append.mp hx with h1 | h2
        · exact h (k', ms) (List.mem_cons_self _ _) x h1
        · rw [List.mem_singleton] at h2
          subst h2
          rw [hm, he]
      · exact h p (List.mem_cons_of_mem _ htail) x hx
    · rcases List.mem_cons.mp hp with rfl | htail
      · exact h _ (List.mem_cons_self _ _) x hx
      · exact insertGrp_consistent hm
          (fun q hq => h q (List.mem_cons_of_mem _ hq)) p htail x hx

theorem groupFold_perm_aux (key : CorpsMember → Str) :
    ∀ (l : List CorpsMember) (acc : List (Str × List CorpsMember)),
      joinVals (l.foldl (fun a m => insertGrp (key m) m a) acc) ~ joinVals acc ++ l
  | [], acc => by simp
  | m :: t, acc => by
    have ih := groupFold_perm_aux key t (insertGrp (key m) m acc)
    simp only [List.foldl_cons]
    refine ih.trans ?_
    calc joinVals (insertGrp (key m) m acc) ++ t
        ~ (m :: joinVals acc) ++ t := (insertGrp_perm (key m) m acc).append_right t
      _ = m :: (joinVals acc ++ t) := rfl
      _ ~ joinVals acc ++ m :: t := List.perm_middle.symm

theorem groupFold_perm (key : CorpsMember → Str) (l : List CorpsMember) :
    joinVals (groupFold key l) ~ l := by
  have h := groupFold_perm_aux key l []
  simpa [joinVals] using h

theorem groupFold_nodup_aux (key : CorpsMember → Str) :
    ∀ (l : List CorpsMember) (acc : List (Str × List CorpsMember)),
      (acc.map Prod.fst).Nodup →
      (((l.foldl (fun a m => insertGrp (key m) m a) acc).map Prod.fst)).Nodup
  | [], _, h => h
  | m :: t, acc, h => by
    simp only [List.foldl_cons]
    exact groupFold_nodup_aux key t _ (insertGrp_nodup_fst h)

theorem groupFold_nodup (key : CorpsMember → Str) (l : List CorpsMember) :
    ((groupFold key l).map Prod.fst).Nodup :=
  groupFold_nodup_aux key l [] (by simp)

theorem groupFold_consistent_aux (key : CorpsMember → Str) :
    ∀ (l : List CorpsMember) (acc : List (Str × List CorpsMember)),
      (∀ p ∈ acc, ∀ x ∈ p.2, key x = p.1) →
      ∀ p ∈ l.foldl (fun a m => insertGrp (key m) m a) acc, ∀ x ∈ p.2, key x = p.1
  | [], _, h => h
  | m :: t, acc, h => by
    simp only [List.foldl_cons]
    exact groupFold_consistent_aux key t _ (insertGrp_consistent rfl h)

theorem groupFold_consistent (key : CorpsMember → Str) (l : List CorpsMember) :
    ∀ p ∈ groupFold key l, ∀ x ∈ p.2, key x = p.1 :=
  groupFold_consistent_aux key l [] (by simp)

theorem eq_of_mem_nodup_fst :
    ∀ {g : List (Str × List CorpsMember)}, (g.map Prod.fst).Nodup →
      ∀ {p q : Str × List CorpsMember}, p ∈ g → q ∈ g → p.1 = q.1 → p = q
  | [], _, p, q, hp, _, _ => absurd hp (List.not_mem_nil p)
  | a :: t, h, p, q, hp, hq, hfst => by
    rw [List.map_cons, List.nodup_cons] at h
    rcases List.mem_cons.mp hp with rfl | hp' <;> rcases List.mem_cons.mp hq with h2 | hq'
    · exact h2.symm
    · exact absurd (hfst ▸ List.mem_map.mpr ⟨q, hq', rfl⟩) h.1
    · subst h2
      exact absurd (hfst ▸ List.mem_map.mpr ⟨p, hp', rfl⟩) h.1
    · exact eq_of_mem_nodup_fst h.2 hp' hq' hfst

theorem exists_group_of_mem (key : CorpsMember → Str) {l : List CorpsMember}
    {m : CorpsMember} (hm : m ∈ l) : ∃ p ∈ groupFold key l, m ∈ p.2 := by
  have hperm := groupFold_perm key l
  have : m ∈ joinVals (groupFold key l) := hperm.mem_iff.mpr hm
  rcases List.mem_flatten.mp this with ⟨vals, hvals, hmv⟩
  rcases List.mem_map.mp hvals with ⟨p, hp, rfl⟩
  exact ⟨p, hp, hmv⟩

theorem sizes_sum_of_perm {g : List (Str × List CorpsMember)} {l : List CorpsMember}
    (h : joinVals g ~ l) : ((g.map fun p => p.2.length).sum) = l.length := by
  have hlen := h.length_eq
  rw [joinVals, List.length_flatten, List.map_map] at hlen
  exact hlen

theorem groupsApp_perm_fold (l : List CorpsMember) :
    groupsApp l ~ groupFold keyApp l :=
  List.perm_insertionSort sizeDesc (groupFold keyApp l)

/-! ## Helper lemmas: field updates -/

theorem getF_setF {f g : Field} (v : FieldVal f) (m : CorpsMember) (h : g ≠ f) :
    getF g (setF f v m) = getF g m := by
  cases f <;> cases g <;> first | exact absurd rfl h | rfl

theorem grouping_spec_of_perm (key : CorpsMember → Str) {l : List CorpsMember}
    {g : List (Str × List CorpsMember)} (hg : g ~ groupFold key l) :
    joinVals g ~ l ∧
    (g.map Prod.fst).Nodup ∧
    (∀ p ∈ g, ∀ m ∈ p.2, p.1 = key m) ∧
    ((g.map fun p => p.2.length).sum = l.length) ∧
    (∀ m ∈ l, ∃ p ∈ g, m ∈ p.2) ∧
    (∀ p ∈ g, ∀ q ∈ g, ∀ m : CorpsMember, m ∈ p.2 → m ∈ q.2 → p = q) := by
  have hjperm : joinVals g ~ l :=
    ((hg.map Prod.snd).flatten).trans (groupFold_perm key l)
  have hnodup : (g.map Prod.fst).Nodup :=
    (hg.map Prod.fst).nodup_iff.mpr (groupFold_nodup key l)
  have hcons : ∀ p ∈ g, ∀ m ∈ p.2, p.1 = key m := fun p hp m hm =>
    (groupFold_consistent key l p (hg.mem_iff.mp hp) m hm).symm
  refine ⟨hjperm, hnodup, hcons, sizes_sum_of_perm hjperm, ?_, ?_⟩
  · intro m hm
    obtain ⟨p, hp, hmp⟩ := exists_group_of_mem key hm
    exact ⟨p, hg.mem_iff.mpr hp, hmp⟩
  · intro p hp q hq m hmp hmq
    exact eq_of_mem_nodup_fst hnodup hp hq
      ((hcons p hp m hmp).trans (hcons q hq m hmq).symm)

/-! ## Claim theorems -/

/-- C4: when extraction fails, the record list and selected group are
exactly what they were before the attempt, the error field is set to the
mapped message, and the processing flag is cleared; `processFiles` is a
single-shot transition with no retry path. -/
theorem extraction_failure_frame (s : AppState) (e : Str) :
    (processFiles s (Except.error e)).data = s.data ∧
    (processFiles s (Except.error e)).selectedGroup = s.selectedGroup ∧
    (processFiles s (Except.error e)).error = some (mapError e) ∧
    (processFiles s (Except.error e)).isProcessing = false ∧
    (processFiles s (Except.error e)).processingStep = Step.idle :=
  ⟨rfl, rfl, rfl, rfl, rfl⟩

/-- C9: `extractCorpsData` returns the member list sorted in ascending
order of the serial-number key `sn || 0` (missing `sn` treated as `0`),
and the returned list is a permutation of the cleaned parse, whatever
order the AI reply listed the members in; both service variants. -/
theorem extract_sorted_by_sn (ms : List RawMember) (ms2 : List RawMember2) :
    List.Sorted (fun a b : RawMember => a.sn.getD 0 ≤ b.sn.getD 0) (extractClean1 ms) ∧
    extractClean1 ms ~ ms.map cleanup1 ∧
    List.Sorted (fun a b : RawMember2 => a.sn.getD 0 ≤ b.sn.getD 0) (extractClean2 ms2) ∧
    extractClean2 ms2 ~ ms2.map cleanup2 :=
  ⟨List.sorted_insertionSort snLe (ms.map cleanup1),
   List.perm_insertionSort snLe (ms.map cleanup1),
   List.sorted_insertionSort snLe2 (ms2.map cleanup2),
   List.perm_insertionSort snLe2 (ms2.map cleanup2)⟩

/-- C10: submitting the manual-add form appends exactly one record at the
end; its `sn` is the previous length plus one, its full name is the
upper-cased input, its organization is `Unassigned` exactly when the PPA
input is blank; all pre-existing records are untouched. -/
theorem addNewMember_appends (newId sc fn g ph ppa : Str) (data : List CorpsMember) :
    addNewMember newId sc fn g ph ppa data =
      data ++ [newMemberOf newId data.length sc fn g ph ppa] ∧
    (addNewMember newId sc fn g ph ppa data).length = data.length + 1 ∧
    (addNewMember newId sc fn g ph ppa data).take data.length = data ∧
    (newMemberOf newId data.length sc fn g ph ppa).sn = data.length + 1 ∧
    (newMemberOf newId data.length sc fn g ph ppa).fullName = upperS fn ∧
    (ppa = [] →
      (newMemberOf newId data.length sc fn g ph ppa).companyName = "Unassigned".toList) ∧
    (ppa ≠ [] →
      (newMemberOf newId data.length sc fn g ph ppa).companyName = ppa) := by
  refine ⟨rfl, by simp [addNewMember], List.take_left data _, rfl, rfl, ?_, ?_⟩
  · intro h
    simp [newMemberOf, jsOrS, h]
  · intro h
    simp [newMemberOf, jsOrS, h]

/-- C10 witness: adding to the empty list with a blank PPA input yields
the `Unassigned` organization. -/
theorem addNewMember_appends_witness :
    (newMemberOf "w".toList 0 "NY".toList "doe".toList "M".toList [] []).companyName =
      "Unassigned".toList :=
  (addNewMember_appends "w".toList "NY".toList "doe".toList "M".toList [] [] []).2.2.2.2.2.1 rfl

/-- C8: `handleEditChange` preserves length and order, rewrites exactly
the records whose id matches (changing only the targeted field), and
leaves every other record untouched; `deleteMember` removes exactly the
records with the given id, keeping the rest unchanged and in order. -/
theorem edit_delete_frame (data : List CorpsMember) (i : Str) (f : Field) (v : FieldVal f) :
    (handleEditChange i f v data).length = data.length ∧
    (∀ j (h : j < data.length),
        (handleEditChange i f v data)[j]? =
          some (if (data.get ⟨j, h⟩).id = i then setF f v (data.get ⟨j, h⟩)
                else data.get ⟨j, h⟩)) ∧
    (∀ (m : CorpsMember) (g : Field), g ≠ f → getF g (setF f v m) = getF g m) ∧
    (∀ m : CorpsMember, m ∈ deleteMember i data ↔ m ∈ data ∧ m.id ≠ i) ∧
    (deleteMember i data).Sublist data := by
  refine ⟨by simp [handleEditChange], ?_, ?_, ?_, List.filter_sublist data⟩
  · intro j h
    rw [handleEditChange, List.getElem?_map, List.getElem?_eq_getElem h]
    rfl
  · intro m g hgf
    exact getF_setF v m hgf
  · intro m
    rw [deleteMember, List.mem_filter]
    simp

/-- C8 witness: editing a one-record list by a non-matching id keeps the
length. -/
theorem edit_delete_frame_witness :
    (handleEditChange "zz".toList Field.fullName "X".toList [smp8]).length =
      ([smp8] : List CorpsMember).length :=
  (edit_delete_frame [smp8] "zz".toList Field.fullName "X".toList).1

/-- C5: the search filter returns exactly the records whose lower-cased
full name, state code or organization contains the lower-cased term as a
contiguous substring, in original order; the empty term is the identity
filter. -/
theorem search_filter_spec (l : List CorpsMember) (t : Str) :
    (filteredData t l).Sublist l ∧
    (∀ m : CorpsMember, m ∈ filteredData t l ↔
        m ∈ l ∧ (lowerS t <:+: lowerS m.fullName ∨ lowerS t <:+: lowerS m.stateCode ∨
                  lowerS t <:+: lowerS m.companyName)) ∧
    (t = [] → filteredData t l = l) := by
  refine ⟨List.filter_sublist l, ?_, ?_⟩
  · intro m
    rw [filteredData, List.mem_filter, matchesS]
    simp only [Bool.or_eq_true, incl_iff, or_assoc]
  · intro h
    subst h
    rw [filteredData, List.filter_eq_self]
    intro m _
    rw [matchesS]
    simp [lowerS, incl_nil]

/-- C5 witness: the empty search term returns the record list unchanged. -/
theorem search_filter_spec_witness : filteredData [] [smp1] = [smp1] :=
  (search_filter_spec [smp1] []).2.2 rfl

/-- C2: every member returned by extraction has passed the
uppercase/default cleanup: the returned list is a permutation of the
cleanup-image of the parse, the gender is exactly `F` or `M` (`F` exactly
when the defaulted raw gender, upper-cased, starts with `F`), the name
fields are the upper-cased (first variant) or trimmed (second variant)
raw values, and empty fields are replaced by their defaults. -/
theorem cleanup_invariants (ms : List RawMember) (ms2 : List RawMember2)
    (r : RawMember) (r2 : RawMember2) :
    extractClean1 ms ~ ms.map cleanup1 ∧
    ((cleanup1 r).gender = some ['F'] ∨ (cleanup1 r).gender = some ['M']) ∧
    ((cleanup1 r).gender = some ['F'] ↔
      startsWithF (upperS (jsOr r.gender ['M'])) = true) ∧
    (cleanup1 r).fullName = some (upperS (jsOr r.fullName [])) ∧
    (cleanup1 r).companyName = some (upperS (jsOr r.companyName "Unassigned".toList)) ∧
    extractClean2 ms2 ~ ms2.map cleanup2 ∧
    ((cleanup2 r2).gender = some ['F'] ∨ (cleanup2 r2).gender = some ['M']) ∧
    ((cleanup2 r2).gender = some ['F'] ↔
      startsWithF (upperS (jsOr r2.gender ['M'])) = true) ∧
    (cleanup2 r2).surname = some (trimS (jsOr r2.surname [])) ∧
    (cleanup2 r2).firstName = some (trimS (jsOr r2.firstName [])) ∧
    (cleanup2 r2).middleName = some (trimS (jsOr r2.middleName [])) ∧
    (cleanup2 r2).stateCode = some (trimS (upperS (jsOr r2.stateCode []))) ∧
    (cleanup2 r2).phone = some (trimS (jsOr r2.phone [])) ∧
    (cleanup2 r2).companyName = some (trimS (jsOr r2.companyName [])) := by
  refine ⟨List.perm_insertionSort _ _, ?_, ?_, rfl, rfl,
    List.perm_insertionSort _ _, ?_, ?_, rfl, rfl, rfl, rfl, rfl, rfl⟩
  · cases h : startsWithF (upperS (jsOr r.gender ['M'])) <;> simp [cleanup1, h]
  · cases h : startsWithF (upperS (jsOr r.gender ['M'])) <;> simp [cleanup1, h]
  · cases h : startsWithF (upperS (jsOr r2.gender ['M'])) <;> simp [cleanup2, h]
  · cases h : startsWithF (upperS (jsOr r2.gender ['M'])) <;> simp [cleanup2, h]

/-- C3 (amended): the catch clause maps the error message by exact
equality: each known token maps to its user-facing string exactly when
the message equals that token, and every other message — including one
that merely contains a token as a proper substring — maps to the generic
fallback. -/
theorem error_mapping_exact (msg : Str) :
    (mapError msg = authMsg ↔ msg = "AUTH_ERROR".toList) ∧
    (mapError msg = overloadMsg ↔ msg = "SERVICE_OVERLOAD".toList) ∧
    (mapError msg = networkMsg ↔ msg = "NETWORK_ERROR".toList) ∧
    (mapError msg = recognitionMsg ↔ msg = "RECOGNITION_ERROR".toList) ∧
    (mapError msg = genericMsg ↔
      ¬ (msg = "AUTH_ERROR".toList ∨ msg = "SERVICE_OVERLOAD".toList ∨
          msg = "NETWORK_ERROR".toList ∨ msg = "RECOGNITION_ERROR".toList)) := by
  by_cases h1 : msg = "AUTH_ERROR".toList
  · subst h1; decide
  by_cases h2 : msg = "SERVICE_OVERLOAD".toList
  · subst h2; decide
  by_cases h3 : msg = "NETWORK_ERROR".toList
  · subst h3; decide
  by_cases h4 : msg = "RECOGNITION_ERROR".toList
  · subst h4; decide
  rw [mapError, if_neg h1, if_neg h2, if_neg h3, if_neg h4]
  exact ⟨iff_of_false (by decide) h1, iff_of_false (by decide) h2,
    iff_of_false (by decide) h3, iff_of_false (by decide) h4,
    iff_of_true rfl (by tauto)⟩

/-- C3 counterexample: an error message that contains the token
`AUTH_ERROR` as a proper substring is mapped to the generic fallback, not
to the authentication message the claim's substring reading requires. -/
theorem error_mapping_substring_cex :
    incl "AUTH_ERROR: access denied".toList "AUTH_ERROR".toList = true ∧
    mapError "AUTH_ERROR: access denied".toList = genericMsg ∧
    genericMsg ≠ authMsg := by decide

/-- C1 (amended): both groupings are single-pass key-to-list
aggregations: every record lands in exactly one group, group keys are
pairwise distinct, group sizes sum to the list length, and the group a
record lands in is keyed by its organization field — exactly
`companyName` in `ppaGroups`, and `companyName` with the empty string
replaced by the placeholder `Unassigned / Not Found` in the App.tsx
`groups` memo. -/
theorem grouping_partition (l : List CorpsMember) :
    joinVals (ppaGroups l) ~ l ∧
    ((ppaGroups l).map Prod.fst).Nodup ∧
    (∀ p ∈ ppaGroups l, ∀ m ∈ p.2, p.1 = m.companyName) ∧
    ((ppaGroups l).map fun p => p.2.length).sum = l.length ∧
    (∀ m ∈ l, ∃ p ∈ ppaGroups l, m ∈ p.2) ∧
    (∀ p ∈ ppaGroups l, ∀ q ∈ ppaGroups l, ∀ m : CorpsMember,
        m ∈ p.2 → m ∈ q.2 → p = q) ∧
    joinVals (groupsApp l) ~ l ∧
    ((groupsApp l).map Prod.fst).Nodup ∧
    (∀ p ∈ groupsApp l, ∀ m ∈ p.2, p.1 = keyApp m) ∧
    ((groupsApp l).map fun p => p.2.length).sum = l.length ∧
    (∀ m ∈ l, ∃ p ∈ groupsApp l, m ∈ p.2) ∧
    (∀ p ∈ groupsApp l, ∀ q ∈ groupsApp l, ∀ m : CorpsMember,
        m ∈ p.2 → m ∈ q.2 → p = q) := by
  obtain ⟨a1, a2, a3, a4, a5, a6⟩ :=
    grouping_spec_of_perm (fun m => m.companyName) (List.Perm.refl (ppaGroups l))
  obtain ⟨b1, b2, b3, b4, b5, b6⟩ :=
    grouping_spec_of_perm keyApp (groupsApp_perm_fold l)
  exact ⟨a1, a2, a3, a4, a5, a6, b1, b2, b3, b4, b5, b6⟩

/-- C1 witness: group sizes sum to the list length on a concrete list. -/
theorem grouping_partition_witness :
    ((ppaGroups [smpEmptyOrg]).map fun p => p.2.length).sum =
      ([smpEmptyOrg] : List CorpsMember).length :=
  (grouping_partition [smpEmptyOrg]).2.2.2.1

/-- C1 counterexample: a record whose organization field is empty lands,
in the App.tsx `groups` memo, in the group keyed by the placeholder
`Unassigned / Not Found`, which differs from its organization field — so
"the group it appears in is the one whose key equals its organization
field" fails as stated. -/
theorem grouping_key_cex :
    smpEmptyOrg ∈ [smpEmptyOrg] ∧
    groupsApp [smpEmptyOrg] = [(placeholderStr, [smpEmptyOrg])] ∧
    placeholderStr ≠ smpEmptyOrg.companyName := by decide

/-- C6: for a non-empty record list whose fields contain no newline, the
CSV text splits at newlines into exactly one header row followed by one
comma-joined row per record in list order (both the App.tsx
`downloadCSV` shape and the `part_000` `exportToCSV` shape). -/
theorem csv_line_structure (l : List CorpsMember) (_hne : l ≠ [])
    (hnl : ∀ m ∈ l, noNL m) :
    splitCh '\n' (csvApp l) = joinWith ',' headersApp :: l.map rowApp ∧
    (splitCh '\n' (csvApp l)).length = l.length + 1 ∧
    (∀ i (h : i < l.length),
        (splitCh '\n' (csvApp l))[i + 1]? = some (rowApp (l.get ⟨i, h⟩))) ∧
    splitCh '\n' (csv0 l) = joinWith ',' headers0 :: l.map row0 ∧
    (splitCh '\n' (csv0 l)).length = l.length + 1 ∧
    (∀ i (h : i < l.length),
        (splitCh '\n' (csv0 l))[i + 1]? = some (row0 (l.get ⟨i, h⟩))) := by
  have hsplit : splitCh '\n' (csvApp l) = joinWith ',' headersApp :: l.map rowApp := by
    rw [csvApp]
    refine splitCh_joinWith _ (by simp) ?_
    intro r hr
    rcases List.mem_cons.mp hr with rfl | hr2
    · decide
    · rcases List.mem_map.mp hr2 with ⟨m, hm, rfl⟩
      exact nl_not_mem_rowApp (hnl m hm)
  have hsplit0 : splitCh '\n' (csv0 l) = joinWith ',' headers0 :: l.map row0 := by
    rw [csv0]
    refine splitCh_joinWith _ (by simp) ?_
    intro r hr
    rcases List.mem_cons.mp hr with rfl | hr2
    · decide
    · rcases List.mem_map.mp hr2 with ⟨m, hm, rfl⟩
      exact nl_not_mem_row0 (hnl m hm)
  refine ⟨hsplit, by rw [hsplit]; simp, ?_, hsplit0, by rw [hsplit0]; simp, ?_⟩
  · intro i h
    rw [hsplit, List.getElem?_cons_succ, List.getElem?_map, List.getElem?_eq_getElem h]
    rfl
  · intro i h
    rw [hsplit0, List.getElem?_cons_succ, List.getElem?_map, List.getElem?_eq_getElem h]
    rfl

/-- C6 witness: on a concrete one-record list the CSV text has exactly
two lines. -/
theorem csv_line_structure_witness :
    (splitCh '\n' (csvApp [smp6])).length = ([smp6] : List CorpsMember).length + 1 :=
  (csv_line_structure [smp6] (by decide) (by decide)).2.1

/-- C7 (amended): an empty organization field is defaulted to a
placeholder rather than dropped: grouping puts such a record in the
`Unassigned / Not Found` group, ingestion cleanup replaces a missing
organization with `Unassigned` and upper-cases it (storing `UNASSIGNED`),
and a manually added record with a blank PPA input receives
`Unassigned`. -/
theorem empty_org_defaults :
    (∀ (l : List CorpsMember) (m : CorpsMember), m ∈ l → m.companyName = [] →
        ∃ p ∈ groupsApp l, p.1 = placeholderStr ∧ m ∈ p.2) ∧
    (∀ r : RawMember, r.companyName = none ∨ r.companyName = some [] →
        (cleanup1 r).companyName = some "UNASSIGNED".toList) ∧
    (∀ (newId sc fn g ph : Str) (n : Nat),
        (newMemberOf newId n sc fn g ph []).companyName = "Unassigned".toList) := by
  refine ⟨?_, ?_, ?_⟩
  · intro l m hm hempty
    obtain ⟨p, hp, hmp⟩ := exists_group_of_mem keyApp hm
    have hp' : p ∈ groupsApp l := (groupsApp_perm_fold l).mem_iff.mpr hp
    have hkey := groupFold_consistent keyApp l p hp m hmp
    refine ⟨p, hp', ?_, hmp⟩
    rw [← hkey, keyApp, hempty]
    rfl
  · intro r hr
    have hc : (cleanup1 r).companyName =
        some (upperS (jsOr r.companyName "Unassigned".toList)) := rfl
    rcases hr with h | h <;> rw [hc, h] <;> decide
  · intro newId sc fn g ph n
    simp [newMemberOf, jsOrS]

/-- C7 witness: cleanup of a parsed member with a missing organization
stores the upper-cased default. -/
theorem empty_org_defaults_witness :
    (cleanup1 smpRawNone).companyName = some "UNASSIGNED".toList :=
  empty_org_defaults.2.1 smpRawNone (Or.inl rfl)

/-- C7 counterexample: the value ingestion cleanup actually stores for a
missing organization is `UNASSIGNED`, not the claim's `Unassigned`. -/
theorem empty_org_defaults_cex :
    (cleanup1 smpRawNone).companyName = some "UNASSIGNED".toList ∧
    (cleanup1 smpRawNone).companyName ≠ some "Unassigned".toList := by decide
